import Mathlib

/-
Verification of the chess puzzle evaluator
(Chess_checkmate_withstalemate.py and Chess_Capture_Game.py).

The Python code is embedded shallowly:

* a board (the Python dict with the 64 squares as keys) is a total map
  from square labels to an optional occupant string; `none` models both a
  key holding `None` and a missing key (as read through `dict.get`);
* the in-place board mutation performed by the capture simulation in
  `can_escape` is modelled by threading the board state explicitly:
  `can_escape` and `determine_checkmate` return the final board next to
  their result;
* the `while` loop of `is_path_clear` is modelled with a fuel parameter
  (the source loop does not terminate on non-aligned inputs; the fuel
  value is shown to be irrelevant for the aligned queries that `attacks`
  actually performs);
* the Python `int` coordinates are Lean `Int`.
-/

namespace Chess

/-- A chess board: a total mapping from square labels to the optional
occupant string stored there (mirrors the Python 64-key dict; `none`
models both an empty square and, through `dict.get`, a missing key). -/
abbrev Board := String → Option String

/-- Pointwise update of a board, modelling `board[pos] = value`. -/
def update (b : Board) (p : String) (v : Option String) : Board :=
  fun q => if q = p then v else b q

/-- The square-label formatter `chr(x + ord('a')) + str(y + 1)` used at
Chess_checkmate_withstalemate.py lines 325 and 360.  (`Char.ofNat` and
`Int.toNat` clamp out-of-range arguments, where Python `chr` would raise;
the formatter is only ever applied to on-board coordinates.) -/
def posOf (x y : Int) : String :=
  String.mk [Char.ofNat (97 + x).toNat] ++ toString (y + 1)

/-- Membership of a single character in a character list; models the
Python test `c in "abcdefgh"` for a one-character `c`. -/
def charIn (c : Char) : List Char → Bool
  | [] => false
  | a :: as => c == a || charIn c as

/-- `parse_position` (identical in both source files): the text must be
exactly two characters, the first in `a`-`h`, the second in `1`-`8`;
then `x = ord(col) - ord('a')` and `y = int(row) - 1` (for a digit
character `row`, `int(row) = ord(row) - 48`). -/
def parse_position (s : String) : Option (Int × Int) :=
  match s.data with
  | [col, row] =>
    if charIn col "abcdefgh".data && charIn row "12345678".data then
      some (((col.toNat : Int) - 97), ((row.toNat : Int) - 48) - 1)
    else none
  | _ => none

/-- The step direction chosen by `is_path_clear`:
`1` if the end coordinate is larger, `-1` if smaller, else `0`. -/
def stepDir (start fin : Int) : Int :=
  if start < fin then 1 else if fin < start then -1 else 0

/-- The `while` loop of `is_path_clear`, with an explicit fuel parameter:
while the current square differs from the end square, report `false` on an
occupied square, else advance by the step.  The source loop diverges on
non-aligned inputs, so the fuel-exhausted value (`true`) is never reached
for the aligned, on-board queries the program performs (proved below). -/
def is_path_clear_aux (board : Board) (x_end y_end step_x step_y : Int)
    (current_x current_y : Int) : Nat → Bool
  | 0 => true
  | fuel + 1 =>
    if current_x = x_end ∧ current_y = y_end then true
    else
      match board (posOf current_x current_y) with
      | some _ => false
      | none =>
        is_path_clear_aux board x_end y_end step_x step_y
          (current_x + step_x) (current_y + step_y) fuel

/-- `is_path_clear` with the fuel made explicit: compute the steps, then
walk from the square one step past the start. -/
def is_path_clear_fuel (board : Board) (x_start y_start x_end y_end : Int)
    (fuel : Nat) : Bool :=
  is_path_clear_aux board x_end y_end (stepDir x_start x_end) (stepDir y_start y_end)
    (x_start + stepDir x_start x_end) (y_start + stepDir y_start y_end) fuel

/-- `is_path_clear` of Chess_checkmate_withstalemate.py (lines 297-331).
Fuel 8 covers every walk between aligned on-board squares (at most 7
iterations, proved below). -/
def is_path_clear (board : Board) (x_start y_start x_end y_end : Int) : Bool :=
  is_path_clear_fuel board x_start y_start x_end y_end 8

/-- The body of `attacks` (Chess_checkmate_withstalemate.py lines 256-295),
parameterized over the path-clearing function it consults, so that the
fact that only aligned queries reach the path check can be stated as a
congruence.  The closure's captured `board` is an explicit argument. -/
def attacksGen (pc : Board → Int → Int → Int → Int → Bool) (board : Board)
    (piece pos : String) (target_x target_y : Int) : Bool :=
  match parse_position pos with
  | none => false
  | some (x, y) =>
    let dx := target_x - x
    let dy := target_y - y
    if piece = "queen" then
      if dx = 0 ∨ dy = 0 ∨ dx.natAbs = dy.natAbs then pc board x y target_x target_y
      else false
    else if piece = "rook" then
      if dx = 0 ∨ dy = 0 then pc board x y target_x target_y
      else false
    else if piece = "bishop" then
      if dx.natAbs = dy.natAbs then pc board x y target_x target_y
      else false
    else if piece = "knight" then
      decide ((dx.natAbs, dy.natAbs) ∈ ([(1, 2), (2, 1)] : List (Nat × Nat)))
    else if piece = "pawn" then
      decide (dy = -1 ∧ dx.natAbs = 1)
    else if piece = "king" then
      decide (dx.natAbs ≤ 1 ∧ dy.natAbs ≤ 1)
    else false

/-- `attacks` of Chess_checkmate_withstalemate.py: the attack predicate
with the source's `is_path_clear` plugged in. -/
def attacks : Board → String → String → Int → Int → Bool :=
  attacksGen is_path_clear

/-- `is_in_check` (lines 333-343): some black piece attacks the white
king's square (the loop with early `return True` is `List.any`). -/
def is_in_check (board : Board) (black_pieces : List (String × String))
    (x_w y_w : Int) : Bool :=
  black_pieces.any (fun bp => attacks board bp.1 bp.2 x_w y_w)

/-- Character-list version of Python `str.startswith`. -/
def charsStart : List Char → List Char → Bool
  | [], _ => true
  | _ :: _, [] => false
  | n :: ns, h :: hs => n == h && charsStart ns hs

/-- Character-list version of the Python substring test `needle in hay`. -/
def charsHas (needle : List Char) : List Char → Bool
  | [] => charsStart needle []
  | h :: hs => charsStart needle (h :: hs) || charsHas needle hs

/-- One iteration of the neighbour loop of `can_escape`
(Chess_checkmate_withstalemate.py lines 353-399), for the offset
`(dx, dy)`.  The accumulator carries the escape list built so far and the
current board.  In the capture branch the board is mutated (king placed on
the captured square, origin vacated), the remaining attackers are
re-tested against the mutated board, and the two squares are then
unconditionally restored, exactly as in the source; the black-piece list
itself is only copied (`black_pieces.copy()` then `remove` on the copy is
`List.erase` on the unchanged input list). -/
def evalSquare (white_piece_position : String)
    (black_pieces : List (String × String)) (x_w y_w dx dy : Int)
    (acc : List String × Board) : List String × Board :=
  if dx = 0 ∧ dy = 0 then acc
  else
    let new_x := x_w + dx
    let new_y := y_w + dy
    if 0 ≤ new_x ∧ new_x < 8 ∧ 0 ≤ new_y ∧ new_y < 8 then
      let escape_pos := posOf new_x new_y
      match acc.2 escape_pos with
      | some occ =>
        if charsStart "White".data occ.data then acc
        else if charsHas "Black".data occ.data then
          match black_pieces.find? (fun bp => bp.2 == escape_pos) with
          | some captured =>
            let temp_black_pieces := black_pieces.erase captured
            let original_piece := acc.2 escape_pos
            let b1 := update acc.2 escape_pos (some "White K")
            let b2 := update b1 white_piece_position none
            let in_check_after_capture :=
              temp_black_pieces.any (fun bp => attacks b2 bp.1 bp.2 new_x new_y)
            let b3 := update b2 escape_pos original_piece
            let b4 := update b3 white_piece_position (some "White K")
            if in_check_after_capture then (acc.1, b4)
            else (acc.1 ++ [escape_pos], b4)
          | none => acc
        else acc
      | none =>
        if black_pieces.any (fun bp => attacks acc.2 bp.1 bp.2 new_x new_y) then acc
        else (acc.1 ++ [escape_pos], acc.2)
    else acc

/-- `can_escape` (lines 345-399): the two nested loops
`for dx in [-1, 0, 1]: for dy in [-1, 0, 1]` over `evalSquare`, starting
from the empty escape list and the given board; returns the escape list
together with the final board. -/
def can_escape (board : Board) (white_piece_position : String)
    (black_pieces : List (String × String)) (x_w y_w : Int) :
    List String × Board :=
  ([-1, 0, 1] : List Int).foldl
    (fun acc dx =>
      ([-1, 0, 1] : List Int).foldl
        (fun acc2 dy => evalSquare white_piece_position black_pieces x_w y_w dx dy acc2)
        acc)
    ([], board)

/-- `determine_checkmate` (lines 235-433), with the board state threaded
through.  The source evaluates, in order, `is_checkmate()` (which calls
`is_in_check()` and, only when in check, `can_escape()`), then
`elif is_in_check()`, then `elif is_stalemate()` (which calls
`is_in_check()` and, only when not in check, `can_escape()`).  Each of
those inner calls is replayed here literally — `is_in_check` reads the
board without mutating it, while every `can_escape` call receives the
board left by the previous one.  When the king's square fails to parse
the source prints a diagnostic and returns `('error', [])`. -/
def determine_checkmate (board : Board) (white_piece_position : String)
    (black_pieces : List (String × String)) :
    (String × List String) × Board :=
  match parse_position white_piece_position with
  | none => (("error", []), board)
  | some (x_w, y_w) =>
    if is_in_check board black_pieces x_w y_w then
      let r1 := can_escape board white_piece_position black_pieces x_w y_w
      if r1.1.length = 0 then
        (("checkmate", []), r1.2)
      else if is_in_check r1.2 black_pieces x_w y_w then
        let r2 := can_escape r1.2 white_piece_position black_pieces x_w y_w
        (("check", r2.1), r2.2)
      else if is_in_check r1.2 black_pieces x_w y_w then
        (("safe", []), r1.2)
      else
        let r3 := can_escape r1.2 white_piece_position black_pieces x_w y_w
        if r3.1.length = 0 then (("stalemate", []), r3.2)
        else (("safe", []), r3.2)
    else if is_in_check board black_pieces x_w y_w then
      let r2 := can_escape board white_piece_position black_pieces x_w y_w
      (("check", r2.1), r2.2)
    else if is_in_check board black_pieces x_w y_w then
      (("safe", []), board)
    else
      let r3 := can_escape board white_piece_position black_pieces x_w y_w
      if r3.1.length = 0 then (("stalemate", []), r3.2)
      else (("safe", []), r3.2)

/-- The `chess_pieces` display table of Chess_Capture_Game.py (lines
18-25.)  Keys outside the table raise `KeyError` in Python; the default
`""` is unreachable for the validated piece names. -/
def chess_pieces_capture (p : String) : String :=
  if p = "king" then "King"
  else if p = "queen" then "Queen"
  else if p = "rook" then "Rook"
  else if p = "bishop" then "Bishop"
  else if p = "knight" then "Knight"
  else if p = "pawn" then "Pawn"
  else ""

/-- The capture-list entry `f'Black {chess_pieces[piece]} ({position})'`
built by `determine_overtakes`. -/
def blackLabel (bp : String × String) : String :=
  "Black " ++ chess_pieces_capture bp.1 ++ " (" ++ bp.2 ++ ")"

/-- `determine_overtakes` of Chess_Capture_Game.py (lines 190-219): for
each black piece (in input order), a white king takes it when both
coordinate distances are at most 1, a white pawn when the file distance is
1 and the black piece is one rank above; pieces whose position fails to
parse are skipped, and an unparseable white position yields the empty
list.  No board is consulted. -/
def determine_overtakes (white_piece_type white_piece_position : String)
    (black_pieces : List (String × String)) : List String :=
  match parse_position white_piece_position with
  | none => []
  | some (x_w, y_w) =>
    black_pieces.foldl
      (fun overtakes bp =>
        match parse_position bp.2 with
        | none => overtakes
        | some (x_b, y_b) =>
          if white_piece_type = "king" then
            if (x_b - x_w).natAbs ≤ 1 ∧ (y_b - y_w).natAbs ≤ 1 then
              overtakes ++ [blackLabel bp]
            else overtakes
          else if white_piece_type = "pawn" then
            if (x_b - x_w).natAbs = 1 ∧ y_b - y_w = 1 then
              overtakes ++ [blackLabel bp]
            else overtakes
          else overtakes)
      []

/-- Two squares share a rank, a file, or a diagonal: exactly the gating
condition under which `attacks` consults `is_path_clear`. -/
def aligned (x y tx ty : Int) : Prop :=
  tx - x = 0 ∨ ty - y = 0 ∨ (tx - x).natAbs = (ty - y).natAbs

/-- `k` lies strictly between `a` and `b` (in either order). -/
def strictlyBetween (a b k : Int) : Prop :=
  (a < k ∧ k < b) ∨ (b < k ∧ k < a)

/-- Modelled from the spec wording for the rook ("every strictly
intermediate square on the line is empty"): along a shared file every
square strictly between the ranks is empty, and along a shared rank every
square strictly between the files is empty. -/
def rookLineClear (board : Board) (x y tx ty : Int) : Prop :=
  (tx = x → ∀ k, strictlyBetween y ty k → board (posOf x k) = none) ∧
  (ty = y → ∀ k, strictlyBetween x tx k → board (posOf k y) = none)

/-- Spec wording for the Capture Finder, king case: the black piece's
square is at Chebyshev distance at most 1 from the king's square. -/
def kingCanTake (x_w y_w : Int) (bp : String × String) : Bool :=
  match parse_position bp.2 with
  | some (x_b, y_b) => decide (max (x_b - x_w).natAbs (y_b - y_w).natAbs ≤ 1)
  | none => false

/-- Spec wording for the Capture Finder, pawn case: the black piece is one
square diagonally forward of the white pawn, forward being increasing
rank. -/
def pawnCanTake (x_w y_w : Int) (bp : String × String) : Bool :=
  match parse_position bp.2 with
  | some (x_b, y_b) => decide ((x_b - x_w).natAbs = 1 ∧ y_b - y_w = 1)
  | none => false

/-- Spec wording for a parseable square label: exactly two characters, a
column letter `a`-`h` followed by a row digit `1`-`8`. -/
def validPos (s : String) : Prop :=
  ∃ c r, s.data = [c, r] ∧ c ∈ "abcdefgh".data ∧ r ∈ "12345678".data

/-- A board with no pieces. -/
def emptyBoard : Board := fun _ => none

/-- White king on e4, black rook on a4 (the board the program builds for
that position: `place_white_piece` stores `'White K'`, the black loop
stores `'Black R'`). -/
def boardKR : Board := fun p =>
  if p = "e4" then some "White K" else if p = "a4" then some "Black R" else none

/-- A single black rook on a1. -/
def boardRookA1 : Board := fun p =>
  if p = "a1" then some "Black R" else none

/-- White king on e4 and four black pawns on d4, d5, f5, f4 (the simple
capture-mode scenario of the spec's testable properties). -/
def boardKingPawns : Board := fun p =>
  if p = "e4" then some "White King"
  else if p = "d4" then some "Black Pawn"
  else if p = "d5" then some "Black Pawn"
  else if p = "f5" then some "Black Pawn"
  else if p = "f4" then some "Black Pawn"
  else none

/-! Helper lemmas -/

/-- `charIn` is list membership. -/
theorem charIn_iff (c : Char) (l : List Char) : charIn c l = true ↔ c ∈ l := by
  induction l with
  | nil => simp [charIn]
  | cons a as ih => simp [charIn, ih]

/-- One step of the path walk. -/
theorem aux_step (board : Board) (xe ye sx sy cx cy : Int) (fuel : Nat) :
    is_path_clear_aux board xe ye sx sy cx cy (fuel + 1) =
      if cx = xe ∧ cy = ye then true
      else
        match board (posOf cx cy) with
        | some _ => false
        | none => is_path_clear_aux board xe ye sx sy (cx + sx) (cy + sy) fuel := rfl

/-- A zero-length path (both endpoints equal) is always clear: the walk
starts on the end square and the loop body never runs. -/
theorem is_path_clear_self (board : Board) (x y : Int) :
    is_path_clear board x y x y = true := by
  have h1 : stepDir x x = 0 := by simp [stepDir]
  have h2 : stepDir y y = 0 := by simp [stepDir]
  rw [is_path_clear, is_path_clear_fuel, h1, h2, show (8 : Nat) = 7 + 1 from rfl, aux_step,
    if_pos ⟨add_zero x, add_zero y⟩]

/-- Round-trip of the coordinate formatter and `parse_position` on the 64
board squares, by evaluation. -/
theorem parse_posOf_nat :
    ∀ a : Nat, a < 8 → ∀ b : Nat, b < 8 →
      parse_position (posOf (a : Int) (b : Int)) = some ((a : Int), (b : Int)) := by
  decide

/-- The restore sequence of the capture simulation (write the king onto
the captured square, vacate the origin, then put both squares back) is the
identity on any board that has `'White K'` on the origin square. -/
theorem restore_chain (b : Board) (e wp : String) (v : Option String)
    (hking : b wp = some "White K") :
    update (update (update (update b e v) wp none) e (b e)) wp (some "White K") = b := by
  funext q
  by_cases hq : q = wp
  · simp [update, hq, hking.symm]
  · by_cases he : q = e
    · subst he
      simp [update, hq]
    · simp [update, hq, he]

/-- One neighbour-square evaluation leaves the board unchanged, provided
the white king is recorded on its square. -/
theorem evalSquare_snd (wp : String) (bps : List (String × String))
    (xw yw dx dy : Int) (acc : List String × Board)
    (hking : acc.2 wp = some "White K") :
    (evalSquare wp bps xw yw dx dy acc).2 = acc.2 := by
  unfold evalSquare
  dsimp only
  split
  · rfl
  split
  · split
    · split
      · rfl
      split
      · split
        · split
          · exact restore_chain acc.2 _ wp _ hking
          · exact restore_chain acc.2 _ wp _ hking
        · rfl
      · rfl
    · split
      · rfl
      · rfl
  · rfl

/-- The inner `for dy` loop preserves the board. -/
theorem foldl_inner_snd (wp : String) (bps : List (String × String))
    (xw yw dx : Int) :
    ∀ (l : List Int) (acc : List String × Board), acc.2 wp = some "White K" →
      (l.foldl (fun acc2 dy => evalSquare wp bps xw yw dx dy acc2) acc).2 = acc.2 := by
  intro l
  induction l with
  | nil => intro acc _; rfl
  | cons d t ih =>
    intro acc h
    rw [List.foldl_cons]
    have hs := evalSquare_snd wp bps xw yw dx d acc h
    rw [ih _ (by rw [hs]; exact h), hs]

/-- The outer `for dx` loop preserves the board. -/
theorem foldl_outer_snd (wp : String) (bps : List (String × String)) (xw yw : Int) :
    ∀ (l : List Int) (acc : List String × Board), acc.2 wp = some "White K" →
      (l.foldl
        (fun acc dx =>
          ([-1, 0, 1] : List Int).foldl
            (fun acc2 dy => evalSquare wp bps xw yw dx dy acc2) acc)
        acc).2 = acc.2 := by
  intro l
  induction l with
  | nil => intro acc _; rfl
  | cons d t ih =>
    intro acc h
    rw [List.foldl_cons]
    have hs := foldl_inner_snd wp bps xw yw d ([-1, 0, 1] : List Int) acc h
    rw [ih _ (by rw [hs]; exact h), hs]

/-- `can_escape` restores the board it was given, provided the white king
is recorded on its square. -/
theorem can_escape_snd (board : Board) (wp : String)
    (bps : List (String × String)) (xw yw : Int)
    (hking : board wp = some "White K") :
    (can_escape board wp bps xw yw).2 = board := by
  unfold can_escape
  exact foldl_outer_snd wp bps xw yw _ ([], board) hking

/-- `determine_checkmate` restores the board it was given, provided the
white king is recorded on its square. -/
theorem determine_checkmate_snd (board : Board) (wp : String)
    (bps : List (String × String))
    (hking : board wp = some "White K") :
    (determine_checkmate board wp bps).2 = board := by
  unfold determine_checkmate
  cases hp : parse_position wp with
  | none => rfl
  | some xy =>
    obtain ⟨x, y⟩ := xy
    have hE : (can_escape board wp bps x y).2 = board :=
      can_escape_snd board wp bps x y hking
    dsimp only
    split_ifs <;> simp [hE]

/-- The capture loop specialised to a white king is filter-then-format:
exactly the black pieces within Chebyshev distance 1 survive, in input
order. -/
theorem overtakes_fold_king (xw yw : Int) :
    ∀ (bps : List (String × String)) (acc : List String),
      bps.foldl
        (fun overtakes bp =>
          match parse_position bp.2 with
          | none => overtakes
          | some (x_b, y_b) =>
            if (x_b - xw).natAbs ≤ 1 ∧ (y_b - yw).natAbs ≤ 1 then
              overtakes ++ [blackLabel bp]
            else overtakes)
        acc
      = acc ++ (bps.filter (kingCanTake xw yw)).map blackLabel := by
  intro bps
  induction bps with
  | nil => intro acc; simp
  | cons bp t ih =>
    intro acc
    rw [List.foldl_cons, List.filter_cons]
    cases hpb : parse_position bp.2 with
    | none =>
      have hk : kingCanTake xw yw bp = false := by simp [kingCanTake, hpb]
      simp [hpb, hk, ih]
    | some xy =>
      obtain ⟨xb, yb⟩ := xy
      by_cases hc : (xb - xw).natAbs ≤ 1 ∧ (yb - yw).natAbs ≤ 1
      · have hk : kingCanTake xw yw bp = true := by
          simp only [kingCanTake, hpb, decide_eq_true_eq]
          omega
        simp [hpb, hc, hk, ih]
      · have hk : kingCanTake xw yw bp = false := by
          simp only [kingCanTake, hpb, decide_eq_false_iff_not]
          omega
        simp [hpb, hc, hk, ih]

/-- The capture loop specialised to a white pawn is filter-then-format:
exactly the black pieces one square diagonally forward survive, in input
order. -/
theorem overtakes_fold_pawn (xw yw : Int) :
    ∀ (bps : List (String × String)) (acc : List String),
      bps.foldl
        (fun overtakes bp =>
          match parse_position bp.2 with
          | none => overtakes
          | some (x_b, y_b) =>
            if (x_b - xw).natAbs = 1 ∧ y_b - yw = 1 then
              overtakes ++ [blackLabel bp]
            else overtakes)
        acc
      = acc ++ (bps.filter (pawnCanTake xw yw)).map blackLabel := by
  intro bps
  induction bps with
  | nil => intro acc; simp
  | cons bp t ih =>
    intro acc
    rw [List.foldl_cons, List.filter_cons]
    cases hpb : parse_position bp.2 with
    | none =>
      have hk : pawnCanTake xw yw bp = false := by simp [pawnCanTake, hpb]
      simp [hpb, hk, ih]
    | some xy =>
      obtain ⟨xb, yb⟩ := xy
      by_cases hc : (xb - xw).natAbs = 1 ∧ yb - yw = 1
      · have hk : pawnCanTake xw yw bp = true := by
          simp [pawnCanTake, hpb, hc]
        simp [hpb, hc, hk, ih]
      · have hk : pawnCanTake xw yw bp = false := by
          simp only [pawnCanTake, hpb, decide_eq_false_iff_not]
          exact hc
        simp [hpb, hc, hk, ih]

/-- Characterization of the path walk: if the end square lies `m` steps
from the current square along the (nonzero) step vector and there is
enough fuel, the walk returns true exactly when all `m` squares it visits
before the end square are empty. -/
theorem aux_spec (b : Board) (sx sy : Int) (hs : ¬(sx = 0 ∧ sy = 0)) :
    ∀ (m : Nat) (cx cy : Int) (fuel : Nat) (xe ye : Int), m < fuel →
      xe = cx + (m : Int) * sx → ye = cy + (m : Int) * sy →
      is_path_clear_aux b xe ye sx sy cx cy fuel =
        decide (∀ i : Nat, i < m →
          b (posOf (cx + (i : Int) * sx) (cy + (i : Int) * sy)) = none) := by
  intro m
  induction m with
  | zero =>
    intro cx cy fuel xe ye hf hxe hye
    obtain ⟨f, rfl⟩ : ∃ f, fuel = f + 1 := ⟨fuel - 1, by omega⟩
    subst hxe hye
    rw [aux_step, if_pos ⟨by simp, by simp⟩]
    simp
  | succ m ih =>
    intro cx cy fuel xe ye hf hxe hye
    obtain ⟨f, rfl⟩ : ∃ f, fuel = f + 1 := ⟨fuel - 1, by omega⟩
    subst hxe hye
    rw [aux_step]
    rw [if_neg ?hne]
    case hne =>
      rintro ⟨h1, h2⟩
      apply hs
      have h1' : ((m + 1 : Nat) : Int) * sx = 0 := by linarith
      have h2' : ((m + 1 : Nat) : Int) * sy = 0 := by linarith
      have hm : ((m + 1 : Nat) : Int) ≠ 0 := by positivity
      exact ⟨(mul_eq_zero.mp h1').resolve_left hm, (mul_eq_zero.mp h2').resolve_left hm⟩
    cases hb : b (posOf cx cy) with
    | some v =>
      simp only [hb]
      symm
      rw [decide_eq_false_iff_not]
      intro hall
      have h0 := hall 0 (by omega)
      simp only [Nat.cast_zero, zero_mul, add_zero] at h0
      rw [h0] at hb
      exact Option.noConfusion hb
    | none =>
      simp only [hb]
      rw [ih (cx + sx) (cy + sy) f _ _ (by omega) (by push_cast; ring) (by push_cast; ring)]
      rw [decide_eq_decide]
      constructor
      · intro h i hi
        cases i with
        | zero =>
          simpa using hb
        | succ j =>
          have hj := h j (by omega)
          have harg1 : cx + sx + (j : Int) * sx = cx + ((j + 1 : Nat) : Int) * sx := by
            push_cast; ring
          have harg2 : cy + sy + (j : Int) * sy = cy + ((j + 1 : Nat) : Int) * sy := by
            push_cast; ring
          rwa [harg1, harg2] at hj
      · intro h i hi
        have hj := h (i + 1) (by omega)
        have harg1 : cx + ((i + 1 : Nat) : Int) * sx = cx + sx + (i : Int) * sx := by
          push_cast; ring
        have harg2 : cy + ((i + 1 : Nat) : Int) * sy = cy + sy + (i : Int) * sy := by
          push_cast; ring
        rwa [harg1, harg2] at hj

/-- The walk's value does not depend on the fuel, as long as the fuel
covers the distance. -/
theorem aux_fuel_stable (b : Board) (sx sy : Int) (hs : ¬(sx = 0 ∧ sy = 0))
    (m : Nat) (cx cy : Int) (f1 f2 : Nat) (h1 : m < f1) (h2 : m < f2)
    (xe ye : Int) (hxe : xe = cx + (m : Int) * sx) (hye : ye = cy + (m : Int) * sy) :
    is_path_clear_aux b xe ye sx sy cx cy f1 =
      is_path_clear_aux b xe ye sx sy cx cy f2 := by
  rw [aux_spec b sx sy hs m cx cy f1 xe ye h1 hxe hye,
    aux_spec b sx sy hs m cx cy f2 xe ye h2 hxe hye]

/-- A character of `"abcdefgh"` has code between 97 and 104. -/
theorem memLetters (c : Char) (h : c ∈ "abcdefgh".data) :
    97 ≤ c.toNat ∧ c.toNat ≤ 104 := by
  fin_cases h <;> decide

/-- A character of `"12345678"` has code between 49 and 56. -/
theorem memDigits (r : Char) (h : r ∈ "12345678".data) :
    49 ≤ r.toNat ∧ r.toNat ≤ 56 := by
  fin_cases h <;> decide

/-- A successfully parsed position lies on the board. -/
theorem parse_bounds (s : String) (x y : Int)
    (hp : parse_position s = some (x, y)) :
    0 ≤ x ∧ x < 8 ∧ 0 ≤ y ∧ y < 8 := by
  obtain ⟨l⟩ := s
  rcases l with _ | ⟨c, _ | ⟨r, _ | ⟨d, rest⟩⟩⟩
  · simp [parse_position] at hp
  · simp [parse_position] at hp
  · by_cases h : (charIn c "abcdefgh".data && charIn r "12345678".data) = true
    · simp only [parse_position, h, if_true] at hp
      obtain ⟨hcm, hrm⟩ : charIn c "abcdefgh".data = true ∧
          charIn r "12345678".data = true := by simpa using h
      have hc := memLetters c ((charIn_iff c _).mp hcm)
      have hr := memDigits r ((charIn_iff r _).mp hrm)
      obtain ⟨rfl, rfl⟩ : ((c.toNat : Int) - 97 = x ∧ (r.toNat : Int) - 48 - 1 = y) := by
        have := Option.some.inj hp
        exact ⟨congrArg Prod.fst this, congrArg Prod.snd this⟩
      omega
    · simp [parse_position, h] at hp
  · simp [parse_position] at hp

/-- Walking straight up (same file, increasing rank, at most seven ranks
apart) is clear exactly when every square strictly between the two ranks
is empty. -/
theorem path_clear_up (b : Board) (x y ty : Int) (h : y < ty) (h7 : ty - y ≤ 7) :
    (is_path_clear b x y x ty = true ↔
      ∀ k : Int, y < k → k < ty → b (posOf x k) = none) := by
  have hsx : stepDir x x = 0 := by simp [stepDir]
  have hsy : stepDir y ty = 1 := by rw [stepDir, if_pos h]
  rw [is_path_clear, is_path_clear_fuel, hsx, hsy]
  rw [aux_spec b 0 1 (by simp) (ty - y - 1).toNat (x + 0) (y + 1) 8 x ty
    (by omega) (by rw [mul_zero]; ring) (by rw [mul_one]; omega)]
  simp only [add_zero, mul_zero, mul_one, decide_eq_true_eq]
  constructor
  · intro hws k hk1 hk2
    have hi := hws (k - y - 1).toNat (by omega)
    rwa [show y + 1 + (((k - y - 1).toNat : Nat) : Int) = k from by omega] at hi
  · intro hk i hi
    exact hk (y + 1 + (i : Int)) (by omega) (by omega)

/-- Walking straight down. -/
theorem path_clear_down (b : Board) (x y ty : Int) (h : ty < y) (h7 : y - ty ≤ 7) :
    (is_path_clear b x y x ty = true ↔
      ∀ k : Int, ty < k → k < y → b (posOf x k) = none) := by
  have hsx : stepDir x x = 0 := by simp [stepDir]
  have hsy : stepDir y ty = -1 := by rw [stepDir, if_neg (by omega), if_pos h]
  rw [is_path_clear, is_path_clear_fuel, hsx, hsy]
  rw [aux_spec b 0 (-1) (by simp) (y - ty - 1).toNat (x + 0) (y + -1) 8 x ty
    (by omega) (by rw [mul_zero]; ring) (by rw [mul_neg_one]; omega)]
  simp only [add_zero, mul_zero, mul_neg_one, decide_eq_true_eq]
  constructor
  · intro hws k hk1 hk2
    have hi := hws (y - k - 1).toNat (by omega)
    rwa [show y + -1 + -(((y - k - 1).toNat : Nat) : Int) = k from by omega] at hi
  · intro hk i hi
    exact hk (y + -1 + -(i : Int)) (by omega) (by omega)

/-- Walking right along a rank. -/
theorem path_clear_right (b : Board) (x y tx : Int) (h : x < tx) (h7 : tx - x ≤ 7) :
    (is_path_clear b x y tx y = true ↔
      ∀ k : Int, x < k → k < tx → b (posOf k y) = none) := by
  have hsx : stepDir x tx = 1 := by rw [stepDir, if_pos h]
  have hsy : stepDir y y = 0 := by simp [stepDir]
  rw [is_path_clear, is_path_clear_fuel, hsx, hsy]
  rw [aux_spec b 1 0 (by simp) (tx - x - 1).toNat (x + 1) (y + 0) 8 tx y
    (by omega) (by rw [mul_one]; omega) (by rw [mul_zero]; ring)]
  simp only [add_zero, mul_zero, mul_one, decide_eq_true_eq]
  constructor
  · intro hws k hk1 hk2
    have hi := hws (k - x - 1).toNat (by omega)
    rwa [show x + 1 + (((k - x - 1).toNat : Nat) : Int) = k from by omega] at hi
  · intro hk i hi
    exact hk (x + 1 + (i : Int)) (by omega) (by omega)

/-- Walking left along a rank. -/
theorem path_clear_left (b : Board) (x y tx : Int) (h : tx < x) (h7 : x - tx ≤ 7) :
    (is_path_clear b x y tx y = true ↔
      ∀ k : Int, tx < k → k < x → b (posOf k y) = none) := by
  have hsx : stepDir x tx = -1 := by rw [stepDir, if_neg (by omega), if_pos h]
  have hsy : stepDir y y = 0 := by simp [stepDir]
  rw [is_path_clear, is_path_clear_fuel, hsx, hsy]
  rw [aux_spec b (-1) 0 (by simp) (x - tx - 1).toNat (x + -1) (y + 0) 8 tx y
    (by omega) (by rw [mul_neg_one]; omega) (by rw [mul_zero]; ring)]
  simp only [add_zero, mul_zero, mul_neg_one, decide_eq_true_eq]
  constructor
  · intro hws k hk1 hk2
    have hi := hws (x - k - 1).toNat (by omega)
    rwa [show x + -1 + -(((x - k - 1).toNat : Nat) : Int) = k from by omega] at hi
  · intro hk i hi
    exact hk (x + -1 + -(i : Int)) (by omega) (by omega)

/-- The rook branch of `attacks`, characterised: a rook attacks a
distinct on-board target square exactly when precisely one of the two
coordinate differences is zero and every strictly intermediate square of
the line is empty. -/
theorem rook_attack_iff (board : Board) (s : String) (x y tx ty : Int)
    (hp : parse_position s = some (x, y))
    (htx0 : 0 ≤ tx) (htx8 : tx < 8) (hty0 : 0 ≤ ty) (hty8 : ty < 8)
    (hne : ¬(tx = x ∧ ty = y)) :
    (attacks board "rook" s tx ty = true ↔
      (((tx - x = 0 ∧ ty - y ≠ 0) ∨ (tx - x ≠ 0 ∧ ty - y = 0)) ∧
        rookLineClear board x y tx ty)) := by
  obtain ⟨hx0, hx8, hy0, hy8⟩ := parse_bounds s x y hp
  have hunfold : attacks board "rook" s tx ty =
      if tx - x = 0 ∨ ty - y = 0 then is_path_clear board x y tx ty else false := by
    simp only [attacks, attacksGen, hp]
    rw [if_neg (by decide : ¬("rook" : String) = "queen"), if_pos trivial]
  rw [hunfold]
  by_cases hal : tx - x = 0 ∨ ty - y = 0
  · rw [if_pos hal]
    rcases hal with h0 | h0
    · rw [show tx = x from by omega]
      have hdy : ty ≠ y := fun hh => hne ⟨by omega, hh⟩
      rcases lt_or_gt_of_ne hdy with hlt | hgt
      · rw [path_clear_down board x y ty hlt (by omega)]
        unfold rookLineClear strictlyBetween
        constructor
        · intro h
          refine ⟨Or.inl ⟨by omega, by omega⟩, ?_, ?_⟩
          · intro _ k hk
            rcases hk with ⟨h1, h2⟩ | ⟨h1, h2⟩
            · omega
            · exact h k (by omega) (by omega)
          · intro hyy
            exact absurd hyy hdy
        · rintro ⟨_, hv, _⟩ k hk1 hk2
          exact hv rfl k (Or.inr ⟨hk1, hk2⟩)
      · rw [path_clear_up board x y ty hgt (by omega)]
        unfold rookLineClear strictlyBetween
        constructor
        · intro h
          refine ⟨Or.inl ⟨by omega, by omega⟩, ?_, ?_⟩
          · intro _ k hk
            rcases hk with ⟨h1, h2⟩ | ⟨h1, h2⟩
            · exact h k (by omega) (by omega)
            · omega
          · intro hyy
            exact absurd hyy hdy
        · rintro ⟨_, hv, _⟩ k hk1 hk2
          exact hv rfl k (Or.inl ⟨hk1, hk2⟩)
    · rw [show ty = y from by omega]
      have hdx : tx ≠ x := fun hh => hne ⟨hh, by omega⟩
      rcases lt_or_gt_of_ne hdx with hlt | hgt
      · rw [path_clear_left board x y tx hlt (by omega)]
        unfold rookLineClear strictlyBetween
        constructor
        · intro h
          refine ⟨Or.inr ⟨by omega, by omega⟩, ?_, ?_⟩
          · intro hxx
            exact absurd hxx hdx
          · intro _ k hk
            rcases hk with ⟨h1, h2⟩ | ⟨h1, h2⟩
            · omega
            · exact h k (by omega) (by omega)
        · rintro ⟨_, _, hv⟩ k hk1 hk2
          exact hv rfl k (Or.inr ⟨hk1, hk2⟩)
      · rw [path_clear_right board x y tx hgt (by omega)]
        unfold rookLineClear strictlyBetween
        constructor
        · intro h
          refine ⟨Or.inr ⟨by omega, by omega⟩, ?_, ?_⟩
          · intro hxx
            exact absurd hxx hdx
          · intro _ k hk
            rcases hk with ⟨h1, h2⟩ | ⟨h1, h2⟩
            · exact h k (by omega) (by omega)
            · omega
        · rintro ⟨_, _, hv⟩ k hk1 hk2
          exact hv rfl k (Or.inl ⟨hk1, hk2⟩)
  · rw [if_neg hal]
    constructor
    · intro h
      exact absurd h (by simp)
    · rintro ⟨hor, _⟩
      rcases hor with ⟨h1, _⟩ | ⟨_, h2⟩
      · exact (hal (Or.inl h1)).elim
      · exact (hal (Or.inr h2)).elim

/-- `stepDir` vanishes exactly on equal coordinates. -/
theorem stepDir_eq_zero (a b : Int) : stepDir a b = 0 ↔ a = b := by
  constructor
  · intro h
    unfold stepDir at h
    split_ifs at h <;> omega
  · intro h
    subst h
    simp [stepDir]

/-- A zero-length walk (both endpoints equal) succeeds for any positive
fuel. -/
theorem is_path_clear_fuel_self (b : Board) (x y : Int) (f : Nat) :
    is_path_clear_fuel b x y x y (f + 1) = true := by
  have h1 : stepDir x x = 0 := by simp [stepDir]
  have h2 : stepDir y y = 0 := by simp [stepDir]
  rw [is_path_clear_fuel, h1, h2, aux_step, if_pos ⟨add_zero x, add_zero y⟩]

/-- Decomposition of an aligned pair of distinct on-board squares: the
end square lies `m + 1` steps from the start along the step vector, with
`m` at most 6. -/
theorem step_decomp (x y tx ty : Int) (hal : aligned x y tx ty)
    (hne : ¬(tx = x ∧ ty = y))
    (hx0 : 0 ≤ x) (hx8 : x < 8) (hy0 : 0 ≤ y) (hy8 : y < 8)
    (htx0 : 0 ≤ tx) (htx8 : tx < 8) (hty0 : 0 ≤ ty) (hty8 : ty < 8) :
    ∃ m : Nat, m ≤ 6 ∧ ¬(stepDir x tx = 0 ∧ stepDir y ty = 0) ∧
      tx = (x + stepDir x tx) + (m : Int) * stepDir x tx ∧
      ty = (y + stepDir y ty) + (m : Int) * stepDir y ty := by
  unfold aligned at hal
  refine ⟨max (tx - x).natAbs (ty - y).natAbs - 1, by omega, ?_, ?_, ?_⟩
  · rintro ⟨h1, h2⟩
    exact hne ⟨((stepDir_eq_zero x tx).mp h1).symm, ((stepDir_eq_zero y ty).mp h2).symm⟩
  · rcases lt_trichotomy x tx with h | h | h
    · rw [stepDir, if_pos h, mul_one]
      omega
    · rw [stepDir, if_neg (by omega), if_neg (by omega), mul_zero]
      omega
    · rw [stepDir, if_neg (by omega), if_pos h, mul_neg_one]
      omega
  · rcases lt_trichotomy y ty with h | h | h
    · rw [stepDir, if_pos h, mul_one]
      omega
    · rw [stepDir, if_neg (by omega), if_neg (by omega), mul_zero]
      omega
    · rw [stepDir, if_neg (by omega), if_pos h, mul_neg_one]
      omega

/-- Between aligned on-board squares the walk needs at most 7 iterations:
its value is the same for every fuel of at least 7. -/
theorem path_fuel_stable (board : Board) (x y tx ty : Int)
    (hal : aligned x y tx ty)
    (hx0 : 0 ≤ x) (hx8 : x < 8) (hy0 : 0 ≤ y) (hy8 : y < 8)
    (htx0 : 0 ≤ tx) (htx8 : tx < 8) (hty0 : 0 ≤ ty) (hty8 : ty < 8)
    (fuel : Nat) (hf : 7 ≤ fuel) :
    is_path_clear_fuel board x y tx ty fuel = is_path_clear_fuel board x y tx ty 7 := by
  by_cases hne : tx = x ∧ ty = y
  · obtain ⟨h1, h2⟩ := hne
    rw [h1, h2]
    obtain ⟨f, rfl⟩ : ∃ f, fuel = f + 1 := ⟨fuel - 1, by omega⟩
    rw [is_path_clear_fuel_self, show (7 : Nat) = 6 + 1 from rfl, is_path_clear_fuel_self]
  · obtain ⟨m, hm6, hs, hxe, hye⟩ :=
      step_decomp x y tx ty hal hne hx0 hx8 hy0 hy8 htx0 htx8 hty0 hty8
    rw [is_path_clear_fuel, is_path_clear_fuel]
    exact aux_fuel_stable board _ _ hs m _ _ fuel 7 (by omega) (by omega) tx ty hxe hye

/-- `attacksGen` consults its path-clearing argument only behind the
alignment gate: two path checkers that agree on aligned pairs yield the
same attack predicate. -/
theorem attacksGen_congr (pc1 pc2 : Board → Int → Int → Int → Int → Bool)
    (h : ∀ b x y tx ty, aligned x y tx ty → pc1 b x y tx ty = pc2 b x y tx ty)
    (board : Board) (piece pos : String) (tx ty : Int) :
    attacksGen pc1 board piece pos tx ty = attacksGen pc2 board piece pos tx ty := by
  unfold attacksGen
  cases hp : parse_position pos with
  | none => rfl
  | some xy =>
    obtain ⟨x, y⟩ := xy
    dsimp only
    split_ifs <;> first
      | rfl
      | (apply h; unfold aligned; tauto)

/-! Claim theorems -/

/-- C3 counterexample: the claim says the attack predicate returns false
whenever source and target squares coincide, for every piece kind; but a
queen on d4 "attacks" d4 itself (the alignment test `dx == 0` passes and
the zero-length path is vacuously clear), already on an empty board. -/
theorem attacks_self_cex : attacks emptyBoard "queen" "d4" 3 3 = true := by decide

/-- C3 (amended): with source square equal to target square, `attacks`
returns false for knight and pawn, but true for queen, rook, bishop
(their alignment test accepts `dx = dy = 0` and the zero-length path is
vacuously clear) and king (distance 0 satisfies `|dx| <= 1 and |dy| <= 1`),
regardless of board occupancy. -/
theorem attacks_self_amended (board : Board) (s : String) (x y : Int)
    (hp : parse_position s = some (x, y)) :
    attacks board "knight" s x y = false ∧
    attacks board "pawn" s x y = false ∧
    attacks board "queen" s x y = true ∧
    attacks board "rook" s x y = true ∧
    attacks board "bishop" s x y = true ∧
    attacks board "king" s x y = true := by
  refine ⟨?_, ?_, ?_, ?_, ?_, ?_⟩
  all_goals simp [attacks, attacksGen, hp, is_path_clear_self, sub_self]
  all_goals decide

/-- C3 witness: the amended statement evaluated for a queen, rook, etc.
on d4 over the empty board. -/
theorem attacks_self_amended_witness :
    attacks emptyBoard "knight" "d4" 3 3 = false ∧
    attacks emptyBoard "pawn" "d4" 3 3 = false ∧
    attacks emptyBoard "queen" "d4" 3 3 = true ∧
    attacks emptyBoard "rook" "d4" 3 3 = true ∧
    attacks emptyBoard "bishop" "d4" 3 3 = true ∧
    attacks emptyBoard "king" "d4" 3 3 = true :=
  attacks_self_amended emptyBoard "d4" 3 3 (by decide)

/-- C4 counterexample: when the white king's square fails to parse,
`determine_checkmate` returns the tag `'error'`, not `'invalid'` as the
claim states. -/
theorem determine_checkmate_error_cex :
    (determine_checkmate emptyBoard "j9" [("rook", "a4")]).1 = ("error", []) ∧
    (determine_checkmate emptyBoard "j9" [("rook", "a4")]).1.1 ≠ "invalid" := by
  decide

/-- C4 (amended): when the white king's square fails to parse,
`determine_checkmate` returns the tag `'error'` with an empty escape list
and the untouched board, before evaluating any attack; and on every input
the returned tag is one of safe, check, checkmate, stalemate, error. -/
theorem determine_checkmate_error_spec (board : Board) (wp : String)
    (bps : List (String × String)) :
    (parse_position wp = none →
      determine_checkmate board wp bps = (("error", []), board)) ∧
    ((determine_checkmate board wp bps).1.1 = "safe" ∨
      (determine_checkmate board wp bps).1.1 = "check" ∨
      (determine_checkmate board wp bps).1.1 = "checkmate" ∨
      (determine_checkmate board wp bps).1.1 = "stalemate" ∨
      (determine_checkmate board wp bps).1.1 = "error") := by
  constructor
  · intro h
    simp [determine_checkmate, h]
  · cases hp : parse_position wp with
    | none => simp [determine_checkmate, hp]
    | some xy =>
      obtain ⟨x, y⟩ := xy
      simp only [determine_checkmate, hp]
      split_ifs <;> simp

/-- C4 witness: the amended statement evaluated at the unparseable square
`j9`. -/
theorem determine_checkmate_error_spec_witness :
    determine_checkmate emptyBoard "j9" [("rook", "a4")] = (("error", []), emptyBoard) ∧
    ((determine_checkmate emptyBoard "j9" [("rook", "a4")]).1.1 = "safe" ∨
      (determine_checkmate emptyBoard "j9" [("rook", "a4")]).1.1 = "check" ∨
      (determine_checkmate emptyBoard "j9" [("rook", "a4")]).1.1 = "checkmate" ∨
      (determine_checkmate emptyBoard "j9" [("rook", "a4")]).1.1 = "stalemate" ∨
      (determine_checkmate emptyBoard "j9" [("rook", "a4")]).1.1 = "error") :=
  ⟨(determine_checkmate_error_spec emptyBoard "j9" [("rook", "a4")]).1 (by decide),
    (determine_checkmate_error_spec emptyBoard "j9" [("rook", "a4")]).2⟩

/-- C2: every King Safety Classifier call returns the board it was given
— the capture simulation's transient writes (king onto the captured
square, origin vacated) are always undone — for any board that records
`'White K'` on the king's square, as `place_white_piece` (lines 140-151)
guarantees.  The black-piece list is never mutated in the embedding
because the source only ever edits a copy (`black_pieces.copy()` followed
by `remove` on the copy, modelled as `List.erase` on the unchanged input
list inside `evalSquare`). -/
theorem determine_checkmate_restores_board (board : Board) (wp : String)
    (bps : List (String × String))
    (hking : board wp = some "White K") :
    (determine_checkmate board wp bps).2 = board :=
  determine_checkmate_snd board wp bps hking

/-- C2 witness: the restoration statement evaluated on the king-and-rook
board, a position whose escape probing does run the neighbour loop. -/
theorem determine_checkmate_restores_board_witness :
    boardKR "e4" = some "White K" ∧
    (determine_checkmate boardKR "e4" [("rook", "a4")]).2 = boardKR :=
  ⟨by decide, determine_checkmate_restores_board boardKR "e4" [("rook", "a4")] (by decide)⟩

/-- C1: for a position whose white-king square parses (and whose board
records the king on that square, as the placement flow guarantees), the
classification of `determine_checkmate` is exactly: checkmate iff in
check with no escape square, check (carrying the non-empty escape list)
iff in check with an escape square, stalemate iff not in check with no
escape square, and safe otherwise. -/
theorem determine_checkmate_classification (board : Board) (wp : String)
    (bps : List (String × String)) (xw yw : Int)
    (hp : parse_position wp = some (xw, yw))
    (hking : board wp = some "White K") :
    ((determine_checkmate board wp bps).1.1 = "checkmate" ↔
      (is_in_check board bps xw yw = true ∧ (can_escape board wp bps xw yw).1 = [])) ∧
    ((determine_checkmate board wp bps).1.1 = "check" ↔
      (is_in_check board bps xw yw = true ∧ (can_escape board wp bps xw yw).1 ≠ [])) ∧
    ((determine_checkmate board wp bps).1.1 = "check" →
      (determine_checkmate board wp bps).1.2 = (can_escape board wp bps xw yw).1) ∧
    ((determine_checkmate board wp bps).1.1 = "stalemate" ↔
      (is_in_check board bps xw yw = false ∧ (can_escape board wp bps xw yw).1 = [])) ∧
    ((determine_checkmate board wp bps).1.1 = "safe" ↔
      (is_in_check board bps xw yw = false ∧ (can_escape board wp bps xw yw).1 ≠ [])) := by
  have hE : (can_escape board wp bps xw yw).2 = board :=
    can_escape_snd board wp bps xw yw hking
  have hE2 : can_escape (can_escape board wp bps xw yw).2 wp bps xw yw =
      can_escape board wp bps xw yw := by rw [hE]
  have hic2 : is_in_check (can_escape board wp bps xw yw).2 bps xw yw =
      is_in_check board bps xw yw := by rw [hE]
  simp only [determine_checkmate, hp]
  cases hic : is_in_check board bps xw yw with
  | false =>
    by_cases hlen : (can_escape board wp bps xw yw).1.length = 0
    · have hnil : (can_escape board wp bps xw yw).1 = [] := List.length_eq_zero.mp hlen
      simp [hic, hlen, hnil]
    · have hnil : (can_escape board wp bps xw yw).1 ≠ [] := by
        intro h; exact hlen (by rw [h]; rfl)
      simp [hic, hlen, hnil]
  | true =>
    by_cases hlen : (can_escape board wp bps xw yw).1.length = 0
    · have hnil : (can_escape board wp bps xw yw).1 = [] := List.length_eq_zero.mp hlen
      simp [hic, hlen, hnil]
    · have hnil : (can_escape board wp bps xw yw).1 ≠ [] := by
        intro h; exact hlen (by rw [h]; rfl)
      simp [hic, hlen, hic2, hE2, hnil]

/-- C1 witness: the classification statement evaluated on the
king-and-rook board (a position that is check with escape squares). -/
theorem determine_checkmate_classification_witness :
    ((determine_checkmate boardKR "e4" [("rook", "a4")]).1.1 = "checkmate" ↔
      (is_in_check boardKR [("rook", "a4")] 4 3 = true ∧
        (can_escape boardKR "e4" [("rook", "a4")] 4 3).1 = [])) ∧
    ((determine_checkmate boardKR "e4" [("rook", "a4")]).1.1 = "check" ↔
      (is_in_check boardKR [("rook", "a4")] 4 3 = true ∧
        (can_escape boardKR "e4" [("rook", "a4")] 4 3).1 ≠ [])) ∧
    ((determine_checkmate boardKR "e4" [("rook", "a4")]).1.1 = "check" →
      (determine_checkmate boardKR "e4" [("rook", "a4")]).1.2 =
        (can_escape boardKR "e4" [("rook", "a4")] 4 3).1) ∧
    ((determine_checkmate boardKR "e4" [("rook", "a4")]).1.1 = "stalemate" ↔
      (is_in_check boardKR [("rook", "a4")] 4 3 = false ∧
        (can_escape boardKR "e4" [("rook", "a4")] 4 3).1 = [])) ∧
    ((determine_checkmate boardKR "e4" [("rook", "a4")]).1.1 = "safe" ↔
      (is_in_check boardKR [("rook", "a4")] 4 3 = false ∧
        (can_escape boardKR "e4" [("rook", "a4")] 4 3).1 ≠ [])) :=
  determine_checkmate_classification boardKR "e4" [("rook", "a4")] 4 3
    (by decide) (by decide)

/-- C7: for a white king the Capture Finder returns exactly the black
pieces at Chebyshev distance at most 1, and for a white pawn exactly
those one square diagonally forward (file distance 1, one rank above —
which excludes the square straight ahead), each formatted and in the
order of the input black-piece list.  `determine_overtakes` takes no
board argument, so no board is consulted or mutated. -/
theorem determine_overtakes_spec (wpp : String) (xw yw : Int)
    (bps : List (String × String))
    (hp : parse_position wpp = some (xw, yw)) :
    determine_overtakes "king" wpp bps =
      (bps.filter (kingCanTake xw yw)).map blackLabel ∧
    determine_overtakes "pawn" wpp bps =
      (bps.filter (pawnCanTake xw yw)).map blackLabel := by
  constructor
  · simp only [determine_overtakes, hp]
    have h := overtakes_fold_king xw yw bps []
    simpa using h
  · simp only [determine_overtakes, hp]
    have h := overtakes_fold_pawn xw yw bps []
    simpa using h

/-- C7 witness: the spec's simple capture scenarios — a white king on e4
captures all four pawns on d4, d5, f5, f4 (in input order); a white pawn
on e4 captures the pieces on d5 and f5 but not the one straight ahead on
e5. -/
theorem determine_overtakes_spec_witness :
    (determine_overtakes "king" "e4"
        [("pawn", "d4"), ("pawn", "d5"), ("pawn", "f5"), ("pawn", "f4")] =
      ([("pawn", "d4"), ("pawn", "d5"), ("pawn", "f5"), ("pawn", "f4")].filter
          (kingCanTake 4 3)).map blackLabel) ∧
    (determine_overtakes "pawn" "e4"
        [("queen", "d5"), ("rook", "f5"), ("knight", "e5")] =
      ([("queen", "d5"), ("rook", "f5"), ("knight", "e5")].filter
          (pawnCanTake 4 3)).map blackLabel) :=
  ⟨(determine_overtakes_spec "e4" 4 3
      [("pawn", "d4"), ("pawn", "d5"), ("pawn", "f5"), ("pawn", "f4")] (by decide)).1,
    (determine_overtakes_spec "e4" 4 3
      [("queen", "d5"), ("rook", "f5"), ("knight", "e5")] (by decide)).2⟩

/-- C6: pawn attack is direction-asymmetric by color.  A black pawn on a2
attacks b1 (`attacks` accepts only `dy == -1`, toward decreasing rank),
on every board; the black-pawn test reads no square at all, so it is
independent of occupancy.  A white pawn on a2 (capture mode,
`determine_overtakes`, which consults no board) does not take a piece on
b1, and takes a parseable target square exactly when it is one step
toward increasing rank on an adjacent file. -/
theorem pawn_attack_direction :
    (∀ board : Board, attacks board "pawn" "a2" 1 0 = true) ∧
    (∀ board bd2 : Board, ∀ tx ty : Int,
      attacks board "pawn" "a2" tx ty = attacks bd2 "pawn" "a2" tx ty) ∧
    (∀ pc : String, determine_overtakes "pawn" "a2" [(pc, "b1")] = []) ∧
    (∀ pc tpos : String, ∀ tx ty : Int, parse_position tpos = some (tx, ty) →
      (determine_overtakes "pawn" "a2" [(pc, tpos)] ≠ [] ↔
        (tx.natAbs = 1 ∧ ty = 2))) := by
  refine ⟨fun board => rfl, fun board bd2 tx ty => rfl, fun pc => rfl, ?_⟩
  intro pc tpos tx ty hp
  have h2 : parse_position "a2" = some (0, 1) := by decide
  simp only [determine_overtakes, h2, List.foldl_cons, List.foldl_nil, hp]
  by_cases hc : (tx - 0).natAbs = 1 ∧ ty - 1 = 1
  · simp only [if_pos hc]
    simp only [List.nil_append, ne_eq]
    constructor
    · intro _; omega
    · intro _; simp
  · simp only [if_neg hc]
    constructor
    · intro h; exact absurd rfl h
    · intro h; omega

/-- C5: a rook attacks a distinct on-board target square exactly when
precisely one of dx, dy is zero and every strictly intermediate square of
the line is empty; in particular a rook on a1 attacks a8 exactly when
every square strictly between them on the a-file (a2 through a7) is
empty, so any occupant of a2..a7 blocks the attack. -/
theorem rook_attack_spec :
    (∀ (board : Board) (s : String) (x y tx ty : Int),
      parse_position s = some (x, y) →
      0 ≤ tx → tx < 8 → 0 ≤ ty → ty < 8 → ¬(tx = x ∧ ty = y) →
      (attacks board "rook" s tx ty = true ↔
        (((tx - x = 0 ∧ ty - y ≠ 0) ∨ (tx - x ≠ 0 ∧ ty - y = 0)) ∧
          rookLineClear board x y tx ty))) ∧
    (∀ board : Board,
      (attacks board "rook" "a1" 0 7 = true ↔
        ∀ k : Int, 0 < k → k < 7 → board (posOf 0 k) = none)) := by
  constructor
  · exact rook_attack_iff
  · intro board
    rw [rook_attack_iff board "a1" 0 0 0 7 (by decide) (by decide) (by decide)
      (by decide) (by decide) (by decide)]
    constructor
    · rintro ⟨_, hv, _⟩ k hk1 hk2
      exact hv rfl k (Or.inl ⟨hk1, hk2⟩)
    · intro hk
      refine ⟨Or.inl ⟨rfl, by decide⟩, ?_, ?_⟩
      · intro _ k hsb
        rcases hsb with ⟨h1, h2⟩ | ⟨h1, h2⟩
        · exact hk k h1 h2
        · omega
      · intro h7
        exact absurd h7 (by decide)

/-- C5 witness: the characterization evaluated for the rook on a1
targeting a8 over a board holding only that rook (the file above it is
empty). -/
theorem rook_attack_spec_witness :
    attacks boardRookA1 "rook" "a1" 0 7 = true ↔
      ((((0 : Int) - 0 = 0 ∧ (7 : Int) - 0 ≠ 0) ∨ ((0 : Int) - 0 ≠ 0 ∧ (7 : Int) - 0 = 0)) ∧
        rookLineClear boardRookA1 0 0 0 7) :=
  rook_attack_spec.1 boardRookA1 "a1" 0 0 0 7 (by decide) (by decide) (by decide)
    (by decide) (by decide) (by decide)

/-- C8: formatting an on-board square (column letter then row digit, the
code's `chr(x + ord('a')) + str(y + 1)`) and parsing it back returns the
original pair; and `parse_position` returns the invalid marker exactly
when the text is not two characters, or its first character is outside
`a`-`h`, or its second is outside `1`-`8`. -/
theorem parse_position_roundtrip :
    (∀ x y : Int, 0 ≤ x → x < 8 → 0 ≤ y → y < 8 →
      parse_position (posOf x y) = some (x, y)) ∧
    (∀ s : String, parse_position s = none ↔ ¬ validPos s) := by
  constructor
  · intro x y hx hx8 hy hy8
    have hx0 : x = ((x.toNat : Nat) : Int) := (Int.toNat_of_nonneg hx).symm
    have hy0 : y = ((y.toNat : Nat) : Int) := (Int.toNat_of_nonneg hy).symm
    rw [hx0, hy0]
    exact parse_posOf_nat x.toNat (by omega) y.toNat (by omega)
  · intro s
    obtain ⟨l⟩ := s
    rcases l with _ | ⟨c, _ | ⟨r, _ | ⟨d, rest⟩⟩⟩
    · simp [parse_position, validPos]
    · simp [parse_position, validPos]
    · by_cases h : (charIn c "abcdefgh".data && charIn r "12345678".data) = true
      · simp only [parse_position, h, if_true]
        obtain ⟨hcm, hrm⟩ : charIn c "abcdefgh".data = true ∧
            charIn r "12345678".data = true := by simpa using h
        constructor
        · intro hsome
          exact Option.noConfusion hsome
        · intro hnv
          exact absurd ⟨c, r, rfl, (charIn_iff c _).mp hcm, (charIn_iff r _).mp hrm⟩ hnv
      · simp only [parse_position, h, if_false]
        constructor
        · rintro - ⟨c2, r2, heq, m1, m2⟩
          obtain ⟨rfl, rfl⟩ : c = c2 ∧ r = r2 := by
            have h1 := congrArg (fun t => t.headI) heq
            have h2 := congrArg (fun t => t.tail.headI) heq
            exact ⟨h1, h2⟩
          exact h (by rw [(charIn_iff c _).mpr m1, (charIn_iff r _).mpr m2]; rfl)
        · intro _
          rfl
    · simp only [parse_position]
      constructor
      · rintro - ⟨c2, r2, heq, -, -⟩
        have := congrArg List.length heq
        simp at this
      · intro _
        trivial

/-- C8 witness: the round trip evaluated at e4, and the invalid-marker
characterization evaluated at a three-character text. -/
theorem parse_position_roundtrip_witness :
    parse_position (posOf 4 3) = some (4, 3) ∧
    (parse_position "e44" = none ↔ ¬ validPos "e44") :=
  ⟨parse_position_roundtrip.1 4 3 (by decide) (by decide) (by decide) (by decide),
    parse_position_roundtrip.2 "e44"⟩

/-- C9: the attack predicate consults the line-of-sight walk only on
squares sharing a rank, file, or diagonal (any two path checkers agreeing
on aligned pairs give the same predicate, so misaligned queries are
unreachable from `attacks = attacksGen is_path_clear`); and on aligned
on-board pairs the walk finishes within 7 iterations: its result is the
same for every fuel of at least 7 (in particular for the fuel 8 that
`is_path_clear` uses). -/
theorem path_alignment_spec :
    (∀ pc1 pc2 : Board → Int → Int → Int → Int → Bool,
      (∀ b x y tx ty, aligned x y tx ty → pc1 b x y tx ty = pc2 b x y tx ty) →
      ∀ (board : Board) (piece pos : String) (tx ty : Int),
        attacksGen pc1 board piece pos tx ty = attacksGen pc2 board piece pos tx ty) ∧
    (∀ (board : Board) (x y tx ty : Int), aligned x y tx ty →
      0 ≤ x → x < 8 → 0 ≤ y → y < 8 → 0 ≤ tx → tx < 8 → 0 ≤ ty → ty < 8 →
      ∀ fuel : Nat, 7 ≤ fuel →
        is_path_clear_fuel board x y tx ty fuel = is_path_clear_fuel board x y tx ty 7) :=
  ⟨attacksGen_congr, fun board x y tx ty hal hx0 hx8 hy0 hy8 htx0 htx8 hty0 hty8 =>
    path_fuel_stable board x y tx ty hal hx0 hx8 hy0 hy8 htx0 htx8 hty0 hty8⟩

/-- C9 witness: the congruence applied to `is_path_clear` against itself
on the rook query a1 to a8, and the fuel stability evaluated on the
(aligned, on-board) pair a1, a8 with fuel 9. -/
theorem path_alignment_spec_witness :
    attacksGen is_path_clear emptyBoard "rook" "a1" 0 7 =
      attacksGen is_path_clear emptyBoard "rook" "a1" 0 7 ∧
    is_path_clear_fuel emptyBoard 0 0 0 7 9 = is_path_clear_fuel emptyBoard 0 0 0 7 7 :=
  ⟨path_alignment_spec.1 is_path_clear is_path_clear
      (fun _ _ _ _ _ _ => rfl) emptyBoard "rook" "a1" 0 7,
    path_alignment_spec.2 emptyBoard 0 0 0 7 (Or.inl rfl) (by decide) (by decide)
      (by decide) (by decide) (by decide) (by decide) (by decide) (by decide)
      9 (by decide)⟩

/-- C6 witness: the direction statements evaluated concretely — the black
pawn on a2 attacks b1, the white pawn on a2 takes nothing on b1, and the
white pawn's target characterization evaluated at b3. -/
theorem pawn_attack_direction_witness :
    attacks emptyBoard "pawn" "a2" 1 0 = true ∧
    determine_overtakes "pawn" "a2" [("queen", "b1")] = [] ∧
    (determine_overtakes "pawn" "a2" [("queen", "b3")] ≠ [] ↔
      ((1 : Int).natAbs = 1 ∧ (2 : Int) = 2)) :=
  ⟨pawn_attack_direction.1 emptyBoard,
    pawn_attack_direction.2.2.1 "queen",
    pawn_attack_direction.2.2.2 "queen" "b3" 1 2 (by decide)⟩

/-- C10: with the white king on e4 and a single black rook on a4 on an
otherwise empty board, `determine_checkmate` reports check and lists f4 as
an escape square, because the rook's line to f4 passes through e4, which
is still occupied by the king when the escape squares are probed (the
rook indeed does not attack f4 on this board). -/
theorem king_blocks_rook_line :
    (determine_checkmate boardKR "e4" [("rook", "a4")]).1.1 = "check" ∧
    "f4" ∈ (determine_checkmate boardKR "e4" [("rook", "a4")]).1.2 ∧
    attacks boardKR "rook" "a4" 5 3 = false := by
  decide

end Chess
